import Mathlib

/-!
Verification of the description-extraction pipeline of
`src/fanza_vr_auto_post.py` (candidate-URL generation, age-gate handling,
main-body / metadata extraction, sanitisation and the fallback ladder).

The Python functions are embedded shallowly:

* strings are Lean `String`s (both count Unicode code points, so Python
  `len` is `String.length` and Python `in` is substring containment);
* the DOM queries performed through BeautifulSoup are abstracted as the
  lists of texts they return (see `Page`); every piece of decision logic
  (validation, scoring, ordering, fallbacks) is translated directly from
  the source;
* network fetches are an explicit map from URL to `FetchOutcome`
  (the mis-indented byte-decoding block at source lines 328-332 is read
  as the evidently intended in-loop statements);
* Python library functions used by the source (`str.strip`, `str.replace`,
  `re.sub r"\s{2,}"`, `html.unescape`, `urllib.parse`, `json.loads`
  results) are modelled on the character-list level, with their scope of
  validity noted at each definition.
-/

set_option maxHeartbeats 1000000
set_option maxRecDepth 100000

/-- The whitespace characters recognised by Python's `str.strip` and the
regex class `\s` on `str` (Unicode whitespace plus the control
separators; the contiguous block U+2000..U+200A is enumerated). -/
def pySpaceList : List Char :=
  [' ', '\t', '\n', '\x0b', '\x0c', '\r', '\x1c', '\x1d', '\x1e', '\x1f',
   '\u0085', '\u00A0', '\u1680',
   '\u2000', '\u2001', '\u2002', '\u2003', '\u2004', '\u2005', '\u2006',
   '\u2007', '\u2008', '\u2009', '\u200A',
   '\u2028', '\u2029', '\u202F', '\u205F', '\u3000']

/-- Python whitespace test. -/
def pyIsSpace (c : Char) : Bool := pySpaceList.contains c

/-- Drop trailing characters satisfying `pyIsSpace` (Python rstrip). -/
def dropTrail : List Char → List Char
  | [] => []
  | c :: rest =>
    let r := dropTrail rest
    if r == [] && pyIsSpace c then [] else c :: r

/-- Python `str.strip()`: drop leading and trailing whitespace. -/
def pyStripChars (l : List Char) : List Char :=
  dropTrail (l.dropWhile pyIsSpace)

/-- Python `str.strip()` on strings. -/
def pyStrip (s : String) : String := String.mk (pyStripChars s.toList)

/-- Does the pattern occur at the head of the list? -/
def subAt : List Char → List Char → Bool
  | [], _ => true
  | _ :: _, [] => false
  | a :: as, b :: bs => a == b && subAt as bs

/-- Does the pattern occur anywhere in the list? -/
def hasSub (pat : List Char) : List Char → Bool
  | [] => subAt pat []
  | b :: bs => subAt pat (b :: bs) || hasSub pat bs

/-- Python `pat in s` (substring containment). -/
def strHas (s pat : String) : Bool := hasSub pat.toList s.toList

/-- Python `s.startswith(pre)`. -/
def pyStartsWith (s pre : String) : Bool := subAt pre.toList s.toList

/-- Python `str.replace` on character lists: replace every
non-overlapping occurrence of `p :: ps`, scanning left to right.  The
recursion is driven by a fuel counter so that it stays structural; each
step consumes at least one character, so fuel equal to the list length is
always sufficient and the fuel-exhausted clause is never reached from
`strReplace`. -/
def replGo (p : Char) (ps rep : List Char) : Nat → List Char → List Char
  | _, [] => []
  | 0, l => l
  | fuel + 1, b :: bs =>
    if subAt (p :: ps) (b :: bs) then rep ++ replGo p ps rep fuel (bs.drop ps.length)
    else b :: replGo p ps rep fuel bs

/-- Python `s.replace(pat, rep)`. The patterns of the source are all
non-empty; Python's interleaving behaviour on an empty pattern is not
reproduced. -/
def strReplace (s pat rep : String) : String :=
  match pat.toList with
  | [] => s
  | p :: ps => String.mk (replGo p ps rep.toList s.toList.length s.toList)

/-- The substitution `re.sub(r"\s{2,}", " ", s)`: every run of two or
more whitespace characters becomes one space; a single whitespace
character is left unchanged.  Fuel-driven structural recursion as above;
each step consumes at least one character. -/
def cwGo : Nat → List Char → List Char
  | _, [] => []
  | _, [c] => [c]
  | 0, l => l
  | fuel + 1, c :: d :: rest =>
    if pyIsSpace c && pyIsSpace d then ' ' :: cwGo fuel (rest.dropWhile pyIsSpace)
    else c :: cwGo fuel (d :: rest)

/-- The whitespace-collapsing substitution on a character list. -/
def collapseWs (l : List Char) : List Char := cwGo l.length l

/-- Named character references, modelled from Python `html.unescape`; the
table is restricted to the references relevant to this development (the
full html5 table is not reproduced), keys listed semicolon form first as
in Python's longest-match lookup.  Keys are stored without the leading
ampersand. -/
def entityTable : List (List Char × List Char) :=
  [("amp;".toList, "&".toList), ("quot;".toList, "\"".toList),
   ("nbsp;".toList, "\u00A0".toList),
   ("amp".toList, "&".toList), ("lt;".toList, "<".toList),
   ("gt;".toList, ">".toList), ("lt".toList, "<".toList),
   ("gt".toList, ">".toList), ("quot".toList, "\"".toList)]

/-- Decode the modelled character references in a character list
(fuel-driven structural recursion as above; each step consumes at least
one character). -/
def unescapeGo : Nat → List Char → List Char
  | _, [] => []
  | 0, l => l
  | fuel + 1, c :: rest =>
    if c == '&' then
      match entityTable.find? (fun e => subAt e.1 rest) with
      | some e => e.2 ++ unescapeGo fuel (rest.drop e.1.length)
      | none => c :: unescapeGo fuel rest
    else c :: unescapeGo fuel rest

/-- Python `html.unescape`: the input is returned unchanged when it has no
ampersand (as the library function does); otherwise the modelled
references are decoded. -/
def htmlUnescape (s : String) : String :=
  if strHas s "&" then String.mk (unescapeGo s.toList.length s.toList) else s

/-- The forbidden phrases `NG_DESCRIPTIONS`. -/
def NG_DESCRIPTIONS : List String :=
  ["From here on, it will be an adult site",
   "18歳未満", "未成年", "18才未満",
   "アダルト商品を取り扱う", "成人向け", "アダルトサイト", "ご利用は18歳以上"]

/-- The acceptance rule `is_valid_description`: non-empty, at least 30
characters after stripping, and containing none of the forbidden
phrases. -/
def is_valid_description (desc : String) : Bool :=
  if desc == "" || (pyStrip desc).length < 30 then false
  else NG_DESCRIPTIONS.all (fun ng => !(strHas desc ng))

/-- The boilerplate substrings deleted by `_clean_text`. -/
def cleanBoilerplate : List String :=
  ["18歳未満", "成人向け", "アダルトサイト", "ご利用は18歳以上", "年齢認証", "無修正"]

/-- The text sanitiser `_clean_text`: entity-decode and strip, collapse
whitespace runs, delete the boilerplate substrings, strip again. -/
def _clean_text (s : String) : String :=
  let s1 := pyStrip (htmlUnescape s)
  let s2 := String.mk (collapseWs s1.toList)
  let s3 := cleanBoilerplate.foldl (fun acc b => strReplace acc b "") s2
  pyStrip s3

/-- The list-valued `iteminfo` entries hold the `name` fields of their
dict entries (the source drops non-dict entries with an isinstance
check); a missing text field is the empty string (the source reads the
fields with `.get` and `or`). -/
structure ItemInfo where
  description : String := ""
  comment : String := ""
  story : String := ""
  actress : List String := []
  label : List String := []
  genre : List String := []
  maker : List String := []
deriving DecidableEq

/-- `sampleImageURL`: the outer `Option` is presence of the resolution
key, the inner one presence of its `image` entry. -/
structure SampleImages where
  sample_l : Option (Option (List String)) := none
  sample_s : Option (Option (List String)) := none
deriving DecidableEq

/-- A catalog item as consumed by the core. -/
structure Item where
  title : String := ""
  URL : String := ""
  content_id : String := ""
  product_id : String := ""
  volume : String := ""
  date : String := ""
  description : String := ""
  comment : String := ""
  story : String := ""
  iteminfo : ItemInfo := {}
  sampleImageURL : SampleImages := {}
deriving DecidableEq

/-- Python `a or b` on strings: the first non-empty one. -/
def orElse2 (a b : String) : String := if a != "" then a else b

/-- The synthesized sentence of `fallback_description` (its f-string). -/
def synth_base (item : Item) : String :=
  let ii := item.iteminfo
  let cast := String.intercalate "、" ii.actress
  let label := String.intercalate "、" ii.label
  let genres := String.intercalate "、" ii.genre
  item.title ++ "。ジャンル：" ++ genres ++ "。出演：" ++ cast ++
    "。レーベル：" ++ label ++ "。収録時間：" ++ item.volume ++ "。"

/-- One iteration of the catalog-field loop of `fallback_description`:
the item-level field, else the iteminfo field, stripped, kept when its
length is within 20..800 and it passes `is_valid_description`. -/
def fieldPick (a b : String) : Option String :=
  let val := pyStrip (orElse2 a b)
  if 20 ≤ val.length && val.length ≤ 800 && is_valid_description val then some val else none

/-- The catalog-field loop of `fallback_description` over the keys
`description`, `comment`, `story`. -/
def fallbackFieldLoop (item : Item) : Option String :=
  match fieldPick item.description item.iteminfo.description with
  | some v => some v
  | none =>
    match fieldPick item.comment item.iteminfo.comment with
    | some v => some v
    | none => fieldPick item.story item.iteminfo.story

/-- `fallback_description`: first qualifying catalog field, else the
synthesized sentence when longer than 10 characters, else a fixed
literal. -/
def fallback_description (item : Item) : String :=
  match fallbackFieldLoop item with
  | some v => v
  | none =>
    if 10 < (synth_base item).length then synth_base item
    else "FANZA（DMM）VR動画の自動投稿です。"

/-- Run-time configuration (the environment toggles of the source, passed
explicitly): SCRAPE_DESC, the availability of BeautifulSoup, and
FORCE_DETAIL_DOMAIN. -/
structure Config where
  scrapeDesc : Bool := true
  bs4Available : Bool := true
  forceDetailDomain : String := ""
deriving DecidableEq

/-- JSON values as produced by json.loads; the numbers occurring in any
property considered here are integers. -/
inductive JVal where
  | jstr : String → JVal
  | jnum : Int → JVal
  | jbool : Bool → JVal
  | jnull : JVal
  | jarr : List JVal → JVal
  | jobj : List (String × JVal) → JVal

mutual
/-- Python str() of a json.loads value (used by str(jd["description"]));
composite values are rendered Python-style with repr of the members
(string-escape handling inside repr is not reproduced; no property here
depends on the rendering of a non-string value). -/
def pyRender : Bool → JVal → String
  | asRepr, .jstr s => if asRepr then "\x27" ++ s ++ "\x27" else s
  | _, .jnum n => toString n
  | _, .jbool true => "True"
  | _, .jbool false => "False"
  | _, .jnull => "None"
  | _, .jarr l => "[" ++ String.intercalate ", " (pyRenderList l) ++ "]"
  | _, .jobj l => "\x7b" ++ String.intercalate ", " (pyRenderFields l) ++ "\x7d"

def pyRenderList : List JVal → List String
  | [] => []
  | v :: vs => pyRender true v :: pyRenderList vs

def pyRenderFields : List (String × JVal) → List String
  | [] => []
  | (k, v) :: vs => ("\x27" ++ k ++ "\x27: " ++ pyRender true v) :: pyRenderFields vs
end

/-- Python str() of a JSON value. -/
def pyStr (v : JVal) : String := pyRender false v

/-- Lookup in a parsed JSON object: json.loads keeps the last of
duplicate keys, so the last binding wins. -/
def objGet (fields : List (String × JVal)) (k : String) : Option JVal :=
  (fields.reverse.find? (fun p => p.1 == k)).map (fun p => p.2)

/-- A fetched detail page after byte decoding and re-serialisation
(html_txt = str(soup)).  The DOM and regex queries of the source are
abstracted as the values they return, in document order:
`text` is the serialised page (used by the substring checks),
`selectorTexts` the get_text results of the nodes matched by the fixed
structural selector list, `headingBlocks` one entry per heading whose
text contains a section keyword, holding the get_text results of the
following sibling p/div/section elements up to the next heading,
`paragraphTexts` the get_text results of all p elements,
`ogDescription` / `metaDescription` the content attribute of the first
matching meta tag, and `jsonLdBlocks` the json.loads result of each
application/ld+json script (`none` for a parse failure). -/
structure Page where
  text : String := ""
  selectorTexts : List String := []
  headingBlocks : List (List String) := []
  paragraphTexts : List String := []
  ogDescription : Option String := none
  metaDescription : Option String := none
  jsonLdBlocks : List (Option JVal) := []

/-- The disqualifying site-boilerplate phrases of the main-body `ok`. -/
def mainNg : List String := ["利用規約", "Cookie", "会員登録", "プライバシー"]

/-- The validation `ok` of extract_main_description: stripped length
within 60..1200 and none of the disqualifying phrases. -/
def mainOk (s : String) : Bool :=
  let t := pyStrip s
  if !(60 ≤ t.length && t.length ≤ 1200) then false
  else mainNg.all (fun ng => !(strHas t ng))

/-- Python str.count for a single-character needle. -/
def countChar (s : String) (c : Char) : Nat := s.toList.count c

/-- The scoring heuristic: length plus twenty per sentence-terminal
mark. -/
def descScore (s : String) : Int :=
  (s.length : Int) + 20 * ((countChar s '。' : Int) + (countChar s '！' : Int) + (countChar s '？' : Int))

/-- The pooled raw candidates of the three discovery strategies, in
source order: structural-selector texts (non-empty ones), the
heading-adjacent sections (non-empty parts joined with a newline), then
the paragraphs of at least 60 characters. -/
def rawCandidates (page : Page) : List String :=
  (page.selectorTexts.filter (fun t => t != "")) ++
  (((page.headingBlocks.map (fun parts => parts.filter (fun t => t != ""))).filter
      (fun parts => parts != [])).map (fun parts => String.intercalate "\n" parts)) ++
  (page.paragraphTexts.filter (fun t => t != "" && 60 ≤ t.length))

/-- The selection loop of extract_main_description: clean each candidate,
keep the valid ones, track the best score with a strict comparison (so a
tie keeps the earlier candidate). -/
def emLoop : List String → Option String → Int → Option String
  | [], best, _ => best
  | c :: rest, best, bestScore =>
    let c2 := _clean_text c
    if mainOk c2 then
      if descScore c2 > bestScore then emLoop rest (some c2) (descScore c2)
      else emLoop rest best bestScore
    else emLoop rest best bestScore

/-- The main-body extractor over the abstracted page structure (the early
return when scraping is disabled, BeautifulSoup is missing, or the page
text is empty, then the scored search). -/
def extract_main_description (cfg : Config) (page : Page) : Option String :=
  if !cfg.scrapeDesc || !cfg.bs4Available || page.text == "" then none
  else emLoop (rawCandidates page) none (-1)

/-- The acceptance gate of the metadata tiers: cleaned length within
30..700 and the global validation. -/
def metaValid (d : String) : Bool :=
  30 ≤ d.length && d.length ≤ 700 && is_valid_description d

/-- The top-level `description` check of one parsed JSON-LD object. -/
def scanDictTop (fields : List (String × JVal)) : Option (String × String) :=
  match objGet fields "description" with
  | some v =>
    let d := _clean_text (pyStr v)
    if metaValid d then some (d, "jsonld") else none
  | none => none

/-- The nested `subjectOf.description` check of one parsed JSON-LD
object (the source requires subjectOf to be a dict). -/
def scanDictSub (fields : List (String × JVal)) : Option (String × String) :=
  match objGet fields "subjectOf" with
  | some (.jobj sf) =>
    match objGet sf "description" with
    | some v =>
      let d := _clean_text (pyStr v)
      if metaValid d then some (d, "jsonld.subject") else none
    | none => none
  | _ => none

/-- One parsed JSON-LD object: the first validated description among the
top-level `description` and the nested `subjectOf.description`, with its
provenance tag; non-dict values are skipped. -/
def scanDict (jd : JVal) : Option (String × String) :=
  match jd with
  | .jobj fields =>
    match scanDictTop fields with
    | some r => some r
    | none => scanDictSub fields
  | _ => none

/-- A block that parses to a list is scanned element-wise, any other
value as the singleton list. -/
def blockArr (data : JVal) : List JVal :=
  match data with
  | .jarr l => l
  | d => [d]

/-- Scan the objects of one block in order. -/
def scanArr : List JVal → Option (String × String)
  | [] => none
  | jd :: rest =>
    match scanDict jd with
    | some r => some r
    | none => scanArr rest

/-- The JSON-LD stage: blocks in document order, a parse failure skips
only its block. -/
def scanJsonld : List (Option JVal) → Option (String × String)
  | [] => none
  | none :: rest => scanJsonld rest
  | some data :: rest =>
    match scanArr (blockArr data) with
    | some r => some r
    | none => scanJsonld rest

/-- The description meta tag tier followed by the JSON-LD tier. -/
def metaTier2 (meta : Option String) (blocks : List (Option JVal)) :
    Option (String × String) :=
  match meta with
  | some c =>
    let d := _clean_text c
    if metaValid d then some (d, "meta") else scanJsonld blocks
  | none => scanJsonld blocks

/-- The metadata fallback of pick_from_html: og:description, then the
description meta tag, then the JSON-LD blocks; each tier returns on its
first validated string. -/
def metaTier (og meta : Option String) (blocks : List (Option JVal)) :
    Option (String × String) :=
  match og with
  | some c =>
    let d := _clean_text c
    if metaValid d then some (d, "og") else metaTier2 meta blocks
  | none => metaTier2 meta blocks

/-- The metadata tiers of pick_from_html in its result shape. -/
def pickMeta (page : Page) : Option String × Option String :=
  match metaTier page.ogDescription page.metaDescription page.jsonLdBlocks with
  | some (d, tag) => (some d, some tag)
  | none => (none, none)

/-- The fixed age-gate marker phrases. -/
def age_gate_markers : List String :=
  ["18歳未満", "未満の方のアクセス", "成人向け", "アダルトサイト",
   "under the age of 18", "age verification"]

/-- The per-page resolver pick_from_html: the age-gate test first, then
the main-body tier (kept when truthy and globally valid), then the
metadata tiers. -/
def pick_from_html (cfg : Config) (page : Page) : Option String × Option String :=
  if age_gate_markers.any (fun k => strHas page.text k) then (none, some "age-gate")
  else
    match extract_main_description cfg page with
    | some md =>
      if md != "" && is_valid_description md then (some md, some "main")
      else pickMeta page
    | none => pickMeta page

/-- The components of urllib.parse.urlparse. -/
structure PyUrl where
  scheme : String := ""
  netloc : String := ""
  path : String := ""
  params : String := ""
  query : String := ""
  fragment : String := ""
deriving DecidableEq

/-- Split at the first occurrence of the separator character. -/
def splitOnceChar (l : List Char) (sep : Char) : Option (List Char × List Char) :=
  match l with
  | [] => none
  | c :: rest =>
    if c == sep then some ([], rest)
    else (splitOnceChar rest sep).map (fun p => (c :: p.1, p.2))

/-- Characters allowed in a URL scheme. -/
def isSchemeChar (c : Char) : Bool :=
  c.isAlpha || c.isDigit || c == '+' || c == '-' || c == '.'

/-- urllib.parse.urlparse, modelled for the absolute URLs the source
handles (scheme://host/path?query#fragment; none of them carries the
semicolon path-parameter syntax, so `params` is always empty). -/
def urlparse (s : String) : PyUrl :=
  let fsplit :=
    match splitOnceChar s.toList '#' with
    | some p => (p.1, String.mk p.2)
    | none => (s.toList, "")
  let qsplit :=
    match splitOnceChar fsplit.1 '?' with
    | some p => (p.1, String.mk p.2)
    | none => (fsplit.1, "")
  let ssplit :=
    match splitOnceChar qsplit.1 ':' with
    | some p =>
      if p.1 != [] && p.1.all isSchemeChar && (p.1.headD ' ').isAlpha then
        (String.mk (p.1.map Char.toLower), p.2)
      else ("", qsplit.1)
    | none => ("", qsplit.1)
  let nsplit :=
    if subAt ['/', '/'] ssplit.2 then
      let after := ssplit.2.drop 2
      match after.findIdx? (fun c => c == '/') with
      | some i => (String.mk (after.take i), String.mk (after.drop i))
      | none => (String.mk after, "")
    else ("", String.mk ssplit.2)
  { scheme := ssplit.1, netloc := nsplit.1, path := nsplit.2, params := "",
    query := qsplit.2, fragment := fsplit.2 }

/-- urllib.parse.urlunparse under the same restriction (empty params). -/
def urlunparse (u : PyUrl) : String :=
  let url0 := u.path
  let url1 :=
    if u.netloc != "" || (url0 != "" && pyStartsWith url0 "//") then
      (if url0 != "" && !(pyStartsWith url0 "/") then "//" ++ u.netloc ++ "/" ++ url0
       else "//" ++ u.netloc ++ url0)
    else url0
  let url2 := if u.scheme != "" then u.scheme ++ ":" ++ url1 else url1
  let url3 := if u.query != "" then url2 ++ "?" ++ u.query else url2
  if u.fragment != "" then url3 ++ "#" ++ u.fragment else url3

/-- Plus-to-space of urllib's unquote_plus; percent-decoding is not
modelled (no percent-escaped query occurs in this development). -/
def qsUnquote (s : String) : String := strReplace s "+" " "

/-- Python `s.split(sep)` for a one-character separator. -/
def splitChar (sep : Char) : List Char → List (List Char)
  | [] => [[]]
  | c :: rest =>
    let r := splitChar sep rest
    if c == sep then [] :: r
    else (c :: r.headD []) :: r.tail

/-- urllib.parse.parse_qsl with its defaults: split the query on `&`,
keep only chunks with a separator and a non-empty value. -/
def parse_qsl (query : String) : List (String × String) :=
  (splitChar '&' query.toList).foldr (fun chunk acc =>
    if chunk.isEmpty then acc
    else
      match splitOnceChar chunk '=' with
      | none => acc
      | some p =>
        if p.2.isEmpty then acc
        else (qsUnquote (String.mk p.1), qsUnquote (String.mk p.2)) :: acc) []

/-- Insertion into a Python dict held as an association list: the first
occurrence fixes the position, a later one overwrites the value. -/
def dictUpsert (d : List (String × String)) (k v : String) : List (String × String) :=
  if d.any (fun p => p.1 == k) then d.map (fun p => if p.1 == k then (k, v) else p)
  else d ++ [(k, v)]

/-- Python dict(pairs). -/
def dictOfPairs (l : List (String × String)) : List (String × String) :=
  l.foldl (fun d p => dictUpsert d p.1 p.2) []

/-- urllib.parse.urlencode on a dict of plain strings (quoting is the
identity on the characters appearing here). -/
def urlencode (d : List (String × String)) : String :=
  String.intercalate "&" (d.map (fun p => p.1 ++ "=" ++ p.2))

/-- make_affiliate_link: force the affiliate_id query parameter. -/
def make_affiliate_link (url aff_id : String) : String :=
  let pu := urlparse url
  let qs := dictUpsert (dictOfPairs (parse_qsl pu.query)) "affiliate_id" aff_id
  urlunparse { pu with query := urlencode qs }

/-- ASCII lower-casing of one character (Python str.lower restricted to
the ASCII range, which covers every query key the source handles). -/
def lowerChar (c : Char) : Char :=
  if 'A' ≤ c && c ≤ 'Z' then Char.ofNat (c.toNat + 32) else c

/-- ASCII lower-casing of a string. -/
def lowerStr (s : String) : String := String.mk (s.toList.map lowerChar)

/-- The affiliate/tracking query keys stripped in step 1 of
_build_candidate_urls. -/
def affiliateKeys : List String := ["affiliate_id", "affi_id", "uid", "af_id"]

/-- Step 1 of _build_candidate_urls: the original URL with the affiliate
query keys (case-insensitively) removed; the source's try/except never
fires since the modelled urlparse is total. -/
def strippedOriginal (original_url : String) : String :=
  let pu := urlparse original_url
  let q := (dictOfPairs (parse_qsl pu.query)).filter
    (fun p => !(affiliateKeys.contains (lowerStr p.1)))
  urlunparse { pu with query := urlencode q }

/-- Step 3 of _build_candidate_urls: the www/video counterpart of one
URL (`none` when the netloc matches neither pattern, mirroring the
swallowed exception of the source). -/
def swapDomain (u : String) : Option String :=
  let pu := urlparse u
  if pyStartsWith pu.netloc "video." then
    match splitOnceChar pu.netloc.toList '.' with
    | some p => some (urlunparse { pu with netloc := "www." ++ String.mk p.2 })
    | none => none
  else if pyStartsWith pu.netloc "www." then
    match splitOnceChar pu.netloc.toList '.' with
    | some p =>
      some (urlunparse { pu with
        netloc := "video." ++ String.mk p.2
        path := strReplace pu.path "/digital/" "/av/" })
    | none => none
  else none

/-- Steps 1 to 3 of _build_candidate_urls: the cleaned original URL, the
cid-template URLs when a content or product id is present, then every
URL's domain-swapped counterpart appended in order. -/
def rawUrls (item : Item) (original_url : String) : List String :=
  let base := [strippedOriginal original_url]
  let cid := pyStrip (orElse2 item.content_id item.product_id)
  let base :=
    if cid != "" then
      base ++
        ["https://www.dmm.co.jp/digital/videoa/-/detail/=/cid=" ++ cid ++ "/",
         "https://www.dmm.co.jp/digital/vrvideo/-/detail/=/cid=" ++ cid ++ "/",
         "https://www.dmm.co.jp/vrvideo/-/detail/=/cid=" ++ cid ++ "/"]
    else base
  base ++ base.foldr (fun u acc => (swapDomain u).toList ++ acc) []

/-- Stable insertion by ascending numeric key: the new element is placed
before the first element of equal or larger key. -/
def insByKey (key : String → Nat) (a : String) : List String → List String
  | [] => [a]
  | b :: bs => if key b < key a then b :: insByKey key a bs else a :: b :: bs

/-- A stable sort by numeric key (Python's list.sort is stable). -/
def stableSortByKey (key : String → Nat) : List String → List String
  | [] => []
  | a :: as => insByKey key a (stableSortByKey key as)

/-- The sort key of step 4: zero when the netloc has the preferred
domain marker. -/
def prefKey (pref : String) (x : String) : Nat :=
  if pyStartsWith (urlparse x).netloc pref then 0 else 1

/-- Steps 1 to 4 of _build_candidate_urls: the preference sort applies
only when FORCE_DETAIL_DOMAIN is `video` or `www`. -/
def sortedUrls (cfg : Config) (item : Item) (original_url : String) : List String :=
  let urls := rawUrls item original_url
  if cfg.forceDetailDomain == "video" || cfg.forceDetailDomain == "www" then
    stableSortByKey
      (prefKey (if cfg.forceDetailDomain == "video" then "video." else "www.")) urls
  else urls

/-- The seen-set dedup loop of step 5: keep the first occurrence. -/
def firstDedupAux (seen : List String) : List String → List String
  | [] => []
  | u :: rest =>
    if seen.contains u then firstDedupAux seen rest
    else u :: firstDedupAux (u :: seen) rest

/-- _build_candidate_urls: steps 1 to 4 followed by the dedup. -/
def _build_candidate_urls (cfg : Config) (item : Item) (original_url : String) :
    List String :=
  firstDedupAux [] (sortedUrls cfg item original_url)

/-- Outcome of one candidate fetch: a raised requests exception, or a
response with its HTTP status code and decoded page.  The source reads
only resp.content, never the status. -/
inductive FetchOutcome where
  | err : FetchOutcome
  | ok : Nat → Page → FetchOutcome

/-- The candidate loop of fetch_description_from_detail_page over the
fetch outcomes of the candidate URLs, in order: an exception advances
(after logging and a pacing sleep, both meaningless here); a response is
handed to pick_from_html; a truthy description returns; anything else
advances. -/
def resolveLoop (cfg : Config) : List FetchOutcome → Option String
  | [] => none
  | FetchOutcome.err :: rest => resolveLoop cfg rest
  | FetchOutcome.ok _ page :: rest =>
    match pick_from_html cfg page with
    | (some d, _) => if d != "" then some d else resolveLoop cfg rest
    | (none, _) => resolveLoop cfg rest

/-- fetch_description_from_detail_page, with the network abstracted as a
map from URL to fetch outcome. -/
def fetch_description_from_detail_page (cfg : Config) (net : String → FetchOutcome)
    (url : String) (item : Item) : String :=
  if !cfg.scrapeDesc then fallback_description item
  else
    match resolveLoop cfg ((_build_candidate_urls cfg item url).map net) with
    | some d => d
    | none => fallback_description item

/-- The remote calls create_wp_post can issue, in order: the
existing-post query, the thumbnail upload, and the post creation with
title, body and category (the tag set is omitted: Python set iteration
order is implementation-defined and no property here depends on it). -/
inductive WpEffect where
  | queryExisting : String → WpEffect
  | uploadImg : String → WpEffect
  | newPost : String → String → String → WpEffect
deriving DecidableEq

/-- The images list chosen by create_wp_post from sampleImageURL:
sample_l's image entry when the key chain exists, else sample_s's, else
empty. -/
def imagesOf (item : Item) : List String :=
  match item.sampleImageURL.sample_l with
  | some (some l) => l
  | some none =>
    match item.sampleImageURL.sample_s with
    | some (some l) => l
    | _ => []
  | none =>
    match item.sampleImageURL.sample_s with
    | some (some l) => l
    | _ => []

/-- create_wp_post, returning the source's boolean and the trace of
remote calls.  The existing-post query result is abstracted as the list
of matching published titles; the upload result only feeds the thumbnail
field and is not modelled further. -/
def create_wp_post (cfg : Config) (net : String → FetchOutcome)
    (existingTitles : List String) (category aff_id : String) (item : Item) :
    Bool × List WpEffect :=
  let title := item.title
  let trace0 := [WpEffect.queryExisting title]
  if existingTitles.contains title then (false, trace0)
  else
    let images := imagesOf item
    if images == [] then (false, trace0)
    else
      let img0 := images.headD ""
      let aff_link := make_affiliate_link item.URL aff_id
      let desc := fetch_description_from_detail_page cfg net item.URL item
      let parts :=
        ["<p><a href=\"" ++ aff_link ++ "\" target=\"_blank\"><img src=\"" ++ img0 ++
           "\" alt=\"" ++ title ++ "\"></a></p>",
         "<p><a href=\"" ++ aff_link ++ "\" target=\"_blank\">" ++ title ++ "</a></p>",
         "<div>" ++ desc ++ "</div>"] ++
        (images.drop 1).map (fun img =>
          "<p><img src=\"" ++ img ++ "\" alt=\"" ++ title ++ "\"></p>") ++
        ["<p><a href=\"" ++ aff_link ++ "\" target=\"_blank\"><img src=\"" ++ img0 ++
           "\" alt=\"" ++ title ++ "\"></a></p>",
         "<p><a href=\"" ++ aff_link ++ "\" target=\"_blank\">" ++ title ++ "</a></p>"]
      (true, trace0 ++ [WpEffect.uploadImg img0,
        WpEffect.newPost title (String.intercalate "\n" parts) category])

/-- Duplicate removal keeping first occurrences, written as an
independent structural recursion: keep the head, dedup the tail and
delete the head's later occurrences (the specification the dedup loop is
checked against). -/
def dedupF : List String → List String
  | [] => []
  | x :: xs => x :: (dedupF xs).filter (fun y => y != x)

/-- No two adjacent whitespace characters (the texts on which the
whitespace-collapsing substitution is the identity). -/
def noWsPair : List Char → Bool
  | [] => true
  | [_] => true
  | c :: d :: rest => !(pyIsSpace c && pyIsSpace d) && noWsPair (d :: rest)

/-- Prefer the candidate of the strictly greater score; on a tie or a
missing challenger keep the earlier element `v`. -/
def pickBetter (v : String) : Option String → Option String
  | none => some v
  | some w => if descScore w > descScore v then some w else some v

/-- The first maximal-score element of a list: a later element wins only
with a strictly greater score. -/
def firstArgmax : List String → Option String
  | [] => none
  | v :: rest => pickBetter v (firstArgmax rest)

/-- The cleaned candidates of one page that pass the main-body
validation, in strategy order (empty when the extractor's early return
fires). -/
def validMainCands (cfg : Config) (page : Page) : List String :=
  if !cfg.scrapeDesc || !cfg.bs4Available || page.text == "" then []
  else ((rawCandidates page).map _clean_text).filter mainOk

/-- The candidate contributed by the top-level `description` of one
JSON-LD object, cleaned and tagged, in list form. -/
def topCands (fields : List (String × JVal)) : List (String × String) :=
  match objGet fields "description" with
  | some v => [(_clean_text (pyStr v), "jsonld")]
  | none => []

/-- The candidate contributed by `subjectOf.description`, likewise. -/
def subCands (fields : List (String × JVal)) : List (String × String) :=
  match objGet fields "subjectOf" with
  | some (.jobj sf) =>
    (match objGet sf "description" with
     | some v => [(_clean_text (pyStr v), "jsonld.subject")]
     | none => [])
  | _ => []

/-- All candidates of one parsed JSON-LD value, in scan order. -/
def dictCands : JVal → List (String × String)
  | .jobj fields => topCands fields ++ subCands fields
  | _ => []

/-- All JSON-LD candidates of a page in scan order; a failed parse
contributes nothing. -/
def jsonldCands : List (Option JVal) → List (String × String)
  | [] => []
  | none :: rest => jsonldCands rest
  | some data :: rest => ((blockArr data).map dictCands).flatten ++ jsonldCands rest

/-- All metadata-stage candidates of a page, in tier order: the cleaned
og:description, the cleaned description meta tag, then the JSON-LD
candidates. -/
def metaCands (og meta : Option String) (blocks : List (Option JVal)) :
    List (String × String) :=
  (match og with | some c => [(_clean_text c, "og")] | none => []) ++
  (match meta with | some c => [(_clean_text c, "meta")] | none => []) ++
  jsonldCands blocks

/-- A 63-character main-body text containing the forbidden phrase 未成年
(and no age-gate marker, no disqualifying phrase, no boilerplate). -/
def mainTextCE : String := "未成年" ++ String.mk (List.replicate 60 'あ')

/-- A 40-character og:description that passes the metadata gate. -/
def ogTextCE : String := String.mk (List.replicate 40 'い')

/-- The page of the tier-priority counterexample: its main-body block
passes the main-body validation but carries 未成年, and a valid
og:description is present. -/
def pageCE2 : Page :=
  { text := mainTextCE, selectorTexts := [mainTextCE], ogDescription := some ogTextCE }

/-- An og:description used by the status-code counterexample. -/
def ogTextCE3 : String :=
  "This page body was fetched and inspected although the status was 404."

/-- A page whose only extractable content is a valid og:description. -/
def pageCE3 : Page := { text := "notfoundpage", ogDescription := some ogTextCE3 }

/-- A page whose text carries an age-gate marker and which nevertheless
offers a valid og:description. -/
def pageW4 : Page :=
  { text := "このサイトはアダルトサイトです", ogDescription := some ogTextCE3 }

/-- A 63-character main-body text valid under both validations. -/
def mainTextW2 : String := String.mk (List.replicate 62 'う') ++ "。"

/-- A page with a fully valid main-body block and a valid
og:description. -/
def pageW2 : Page :=
  { text := "detailpage", selectorTexts := [mainTextW2], ogDescription := some ogTextCE }

/-- Two valid main-body candidates of different scores. -/
def candW5a : String := String.mk (List.replicate 60 'か')

/-- The higher-scoring candidate (61 characters and one sentence mark). -/
def candW5b : String := String.mk (List.replicate 61 'き') ++ "。"

/-- A page pooling the two scored candidates. -/
def pageW5 : Page := { text := "x", selectorTexts := [candW5a, candW5b] }


theorem strMk_toList (s : String) : String.mk s.toList = s := rfl

theorem string_length_toList (s : String) : s.length = s.toList.length := rfl

theorem dropTrail_idem (l : List Char) : dropTrail (dropTrail l) = dropTrail l := by
  induction l with
  | nil => rfl
  | cons c rest ih =>
    simp only [dropTrail]
    split
    · rfl
    · rename_i hcond
      simp only [dropTrail, ih]
      rw [if_neg hcond]

theorem dropTrail_head (l : List Char) :
    dropTrail l = [] ∨ (dropTrail l).head? = l.head? := by
  cases l with
  | nil => exact Or.inl rfl
  | cons c rest =>
    simp only [dropTrail]
    split
    · exact Or.inl rfl
    · exact Or.inr rfl

theorem dw_head_false (p : Char → Bool) :
    ∀ (l : List Char) (c : Char), (l.dropWhile p).head? = some c → p c = false := by
  intro l
  induction l with
  | nil => intro c h; simp [List.dropWhile] at h
  | cons a as ih =>
    intro c h
    by_cases hp : p a = true
    · exact ih c (by simpa [List.dropWhile, hp] using h)
    · simp only [Bool.not_eq_true] at hp
      simp [List.dropWhile, hp] at h
      subst h; exact hp

theorem dw_noop (p : Char → Bool) (l : List Char)
    (h : ∀ c, l.head? = some c → p c = false) : l.dropWhile p = l := by
  cases l with
  | nil => rfl
  | cons a as => simp [List.dropWhile, h a rfl]

theorem pyStripChars_idem (l : List Char) :
    pyStripChars (pyStripChars l) = pyStripChars l := by
  unfold pyStripChars
  have h1 : ∀ c, (dropTrail (l.dropWhile pyIsSpace)).head? = some c → pyIsSpace c = false := by
    intro c hc
    rcases dropTrail_head (l.dropWhile pyIsSpace) with h | h
    · rw [h] at hc; simp at hc
    · rw [h] at hc
      exact dw_head_false pyIsSpace l c hc
  rw [dw_noop pyIsSpace (dropTrail (l.dropWhile pyIsSpace)) h1, dropTrail_idem]

theorem pyStrip_idem (s : String) : pyStrip (pyStrip s) = pyStrip s := by
  unfold pyStrip
  congr 1
  exact pyStripChars_idem s.toList

theorem dropTrail_length_le (l : List Char) : (dropTrail l).length ≤ l.length := by
  induction l with
  | nil => simp [dropTrail]
  | cons c rest ih =>
    simp only [dropTrail]
    split
    · simp
    · simp only [List.length_cons]; omega

theorem pyStrip_length_le (s : String) : (pyStrip s).length ≤ s.length := by
  rw [string_length_toList, string_length_toList]
  show (pyStripChars s.toList).length ≤ s.toList.length
  unfold pyStripChars
  calc (dropTrail (s.toList.dropWhile pyIsSpace)).length
      ≤ (s.toList.dropWhile pyIsSpace).length := dropTrail_length_le _
    _ ≤ s.toList.length := (List.dropWhile_suffix pyIsSpace).sublist.length_le

theorem is_valid_ne_empty {d : String} (h : is_valid_description d = true) : d ≠ "" := by
  intro he; subst he; exact absurd h (by decide)

theorem fieldPick_valid {a b v : String} (h : fieldPick a b = some v) :
    is_valid_description v = true := by
  simp only [fieldPick] at h
  split at h
  · rename_i hc
    rw [Option.some.injEq] at h
    subst h
    simp only [Bool.and_eq_true, decide_eq_true_eq] at hc
    exact hc.2
  · cases h

theorem fallbackFieldLoop_valid {item : Item} {v : String}
    (h : fallbackFieldLoop item = some v) : is_valid_description v = true := by
  unfold fallbackFieldLoop at h
  cases h1 : fieldPick item.description item.iteminfo.description with
  | some w => rw [h1] at h; cases h; exact fieldPick_valid h1
  | none =>
    rw [h1] at h
    cases h2 : fieldPick item.comment item.iteminfo.comment with
    | some w => rw [h2] at h; cases h; exact fieldPick_valid h2
    | none => rw [h2] at h; exact fieldPick_valid h

theorem synth_base_length (item : Item) : 10 < (synth_base item).length := by
  have e1 : ("。ジャンル：" : String).length = 6 := by decide
  have e2 : ("。出演：" : String).length = 4 := by decide
  have e3 : ("。レーベル：" : String).length = 6 := by decide
  have e4 : ("。収録時間：" : String).length = 6 := by decide
  have e5 : ("。" : String).length = 1 := by decide
  simp only [synth_base, String.length_append, e1, e2, e3, e4, e5]
  omega

theorem fallback_ne_empty (item : Item) : fallback_description item ≠ "" := by
  unfold fallback_description
  cases hfl : fallbackFieldLoop item with
  | some v => exact is_valid_ne_empty (fallbackFieldLoop_valid hfl)
  | none =>
    by_cases hlen : 10 < (synth_base item).length
    · rw [if_pos hlen]
      show synth_base item ≠ ""
      intro he
      rw [he] at hlen
      exact absurd hlen (by decide)
    · rw [if_neg hlen]
      decide

theorem resolveLoop_all_err (cfg : Config) :
    ∀ l : List FetchOutcome, (∀ o ∈ l, o = FetchOutcome.err) → resolveLoop cfg l = none := by
  intro l h
  induction l with
  | nil => rfl
  | cons o rest ih =>
    have ho := h o (List.mem_cons_self o rest)
    subst ho
    simp only [resolveLoop]
    exact ih (fun o ho => h o (List.mem_cons_of_mem _ ho))

theorem cwGo_noop : ∀ (fuel : Nat) (l : List Char), noWsPair l = true → cwGo fuel l = l := by
  intro fuel
  induction fuel with
  | zero =>
    intro l _
    cases l with
    | nil => rfl
    | cons c rest => cases rest <;> rfl
  | succ fuel ih =>
    intro l h
    cases l with
    | nil => rfl
    | cons c rest =>
      cases rest with
      | nil => rfl
      | cons d rest2 =>
        simp only [noWsPair, Bool.and_eq_true, Bool.not_eq_true'] at h
        have hcond : ¬ ((pyIsSpace c && pyIsSpace d) = true) := by simp [h.1]
        show (if pyIsSpace c && pyIsSpace d then ' ' :: cwGo fuel (rest2.dropWhile pyIsSpace)
          else c :: cwGo fuel (d :: rest2)) = c :: d :: rest2
        rw [if_neg hcond, ih (d :: rest2) h.2]

theorem collapseWs_noop (l : List Char) (h : noWsPair l = true) : collapseWs l = l :=
  cwGo_noop l.length l h

theorem replGo_noop (p : Char) (ps rep : List Char) :
    ∀ (fuel : Nat) (l : List Char), hasSub (p :: ps) l = false → replGo p ps rep fuel l = l := by
  intro fuel
  induction fuel with
  | zero =>
    intro l _
    cases l <;> rfl
  | succ fuel ih =>
    intro l h
    cases l with
    | nil => rfl
    | cons b bs =>
      simp only [hasSub, Bool.or_eq_false_iff] at h
      have hcond : ¬ (subAt (p :: ps) (b :: bs) = true) := by simp [h.1]
      show (if subAt (p :: ps) (b :: bs) then rep ++ replGo p ps rep fuel (bs.drop ps.length)
        else b :: replGo p ps rep fuel bs) = b :: bs
      rw [if_neg hcond, ih bs h.2]

theorem strReplace_noop (s pat rep : String) (h : strHas s pat = false) :
    strReplace s pat rep = s := by
  unfold strReplace
  unfold strHas at h
  cases hp : pat.toList with
  | nil => rfl
  | cons p ps =>
    rw [hp] at h
    show String.mk (replGo p ps rep.toList s.toList.length s.toList) = s
    rw [replGo_noop p ps rep.toList s.toList.length s.toList h, strMk_toList]

theorem foldl_replace_noop (t : String) :
    ∀ bs : List String, (∀ b ∈ bs, strHas t b = false) →
      bs.foldl (fun acc b => strReplace acc b "") t = t := by
  intro bs
  induction bs with
  | nil => intro _; rfl
  | cons b rest ih =>
    intro h
    simp only [List.foldl_cons]
    rw [strReplace_noop t b "" (h b (by simp))]
    exact ih (fun x hx => h x (by simp [hx]))

theorem htmlUnescape_noop (s : String) (h : strHas s "&" = false) :
    htmlUnescape s = s := by
  unfold htmlUnescape
  rw [h]
  rfl

theorem clean_stripped (s : String) : pyStrip (_clean_text s) = _clean_text s := by
  simp only [_clean_text]
  exact pyStrip_idem _


theorem firstArgmax_eq_none {l : List String} : firstArgmax l = none ↔ l = [] := by
  cases l with
  | nil => simp [firstArgmax]
  | cons v rest =>
    constructor
    · intro h
      exact absurd h (by
        simp only [firstArgmax]
        cases firstArgmax rest with
        | none => simp [pickBetter]
        | some w => simp only [pickBetter]; split <;> simp)
    · intro h
      exact absurd h (List.cons_ne_nil v rest)

theorem firstArgmax_le {l : List String} {w : String} (h : firstArgmax l = some w) :
    ∀ e ∈ l, descScore e ≤ descScore w := by
  induction l generalizing w with
  | nil => simp [firstArgmax] at h
  | cons v rest ih =>
    simp only [firstArgmax] at h
    cases hr : firstArgmax rest with
    | none =>
      rw [hr] at h
      simp only [pickBetter] at h
      cases h
      have : rest = [] := firstArgmax_eq_none.mp hr
      subst this
      intro e he
      rw [List.mem_singleton] at he
      subst he
      exact le_refl _
    | some w0 =>
      rw [hr] at h
      simp only [pickBetter] at h
      by_cases hgt : descScore w0 > descScore v
      · rw [if_pos hgt] at h
        cases h
        intro e he
        rcases List.mem_cons.mp he with rfl | he
        · exact le_of_lt hgt
        · exact ih hr e he
      · rw [if_neg hgt] at h
        cases h
        intro e he
        rcases List.mem_cons.mp he with rfl | he
        · exact le_refl _
        · exact le_trans (ih hr e he) (not_lt.mp hgt)

theorem firstArgmax_decomp {l : List String} {d : String} (h : firstArgmax l = some d) :
    ∃ l₁ l₂, l = l₁ ++ d :: l₂ ∧ (∀ e ∈ l₁, descScore e < descScore d) ∧
      (∀ e ∈ l₂, descScore e ≤ descScore d) := by
  induction l generalizing d with
  | nil => simp [firstArgmax] at h
  | cons v rest ih =>
    simp only [firstArgmax] at h
    cases hr : firstArgmax rest with
    | none =>
      rw [hr] at h
      simp only [pickBetter] at h
      cases h
      have hrest : rest = [] := firstArgmax_eq_none.mp hr
      subst hrest
      exact ⟨[], [], rfl, by simp, by simp⟩
    | some w0 =>
      rw [hr] at h
      simp only [pickBetter] at h
      by_cases hgt : descScore w0 > descScore v
      · rw [if_pos hgt] at h
        cases h
        rcases ih hr with ⟨r₁, r₂, heq, h₁, h₂⟩
        refine ⟨v :: r₁, r₂, by rw [heq]; rfl, ?_, h₂⟩
        intro e he
        rcases List.mem_cons.mp he with rfl | he
        · exact hgt
        · exact h₁ e he
      · rw [if_neg hgt] at h
        cases h
        refine ⟨[], rest, rfl, by simp, ?_⟩
        intro e he
        exact le_trans (firstArgmax_le hr e he) (not_lt.mp hgt)

theorem descScore_nonneg (s : String) : 0 ≤ descScore s := by
  simp only [descScore]
  positivity

theorem pickBetter_none (v : String) : pickBetter v none = some v := rfl

theorem pickBetter_some (v w : String) :
    pickBetter v (some w) = if descScore w > descScore v then some w else some v := rfl

theorem emLoop_acc (rest : List String) :
    ∀ v : String, emLoop rest (some v) (descScore v) =
      pickBetter v (firstArgmax ((rest.map _clean_text).filter mainOk)) := by
  induction rest with
  | nil => intro v; rfl
  | cons c rest ih =>
    intro v
    simp only [emLoop, List.map_cons]
    by_cases hok : mainOk (_clean_text c) = true
    · rw [if_pos hok, List.filter_cons_of_pos hok]
      simp only [firstArgmax]
      by_cases hgt : descScore (_clean_text c) > descScore v
      · rw [if_pos hgt, ih (_clean_text c)]
        cases firstArgmax ((rest.map _clean_text).filter mainOk) with
        | none =>
          rw [pickBetter_none, pickBetter_some, if_pos hgt]
        | some w =>
          rw [pickBetter_some (_clean_text c) w]
          by_cases hw : descScore w > descScore (_clean_text c)
          · rw [if_pos hw, pickBetter_some, if_pos (lt_trans hgt hw)]
          · rw [if_neg hw, pickBetter_some, if_pos hgt]
      · rw [if_neg hgt, ih v]
        cases firstArgmax ((rest.map _clean_text).filter mainOk) with
        | none =>
          rw [pickBetter_none, pickBetter_none, pickBetter_some, if_neg hgt]
        | some w =>
          rw [pickBetter_some (_clean_text c) w]
          by_cases hw : descScore w > descScore (_clean_text c)
          · rw [if_pos hw]
          · have hwv : ¬ descScore w > descScore v :=
              not_lt.mpr (le_trans (not_lt.mp hw) (not_lt.mp hgt))
            rw [if_neg hw, pickBetter_some v w, pickBetter_some v (_clean_text c),
              if_neg hwv, if_neg hgt]
    · rw [if_neg hok, List.filter_cons_of_neg hok]
      exact ih v

theorem emLoop_eq (cands : List String) :
    emLoop cands none (-1) = firstArgmax ((cands.map _clean_text).filter mainOk) := by
  induction cands with
  | nil => rfl
  | cons c rest ih =>
    simp only [emLoop, List.map_cons]
    by_cases hok : mainOk (_clean_text c) = true
    · rw [if_pos hok, List.filter_cons_of_pos hok]
      have hpos : descScore (_clean_text c) > (-1 : Int) :=
        lt_of_lt_of_le (by norm_num) (descScore_nonneg _)
      rw [if_pos hpos, emLoop_acc rest (_clean_text c)]
      simp only [firstArgmax]
    · rw [if_neg hok, List.filter_cons_of_neg hok]
      exact ih

theorem dedupF_nodup (l : List String) : (dedupF l).Nodup := by
  induction l with
  | nil => simp [dedupF]
  | cons x xs ih =>
    simp only [dedupF]
    refine List.nodup_cons.mpr ⟨?_, List.Nodup.filter _ ih⟩
    intro hx
    have := List.of_mem_filter hx
    simp at this

theorem dedupF_mem (l : List String) (y : String) : y ∈ dedupF l ↔ y ∈ l := by
  induction l with
  | nil => simp [dedupF]
  | cons x xs ih =>
    simp only [dedupF, List.mem_cons]
    constructor
    · rintro (rfl | h)
      · exact Or.inl rfl
      · exact Or.inr (ih.mp (List.mem_of_mem_filter h))
    · rintro (rfl | h)
      · exact Or.inl rfl
      · by_cases hyx : y = x
        · exact Or.inl hyx
        · refine Or.inr (List.mem_filter.mpr ⟨ih.mpr h, ?_⟩)
          simp [hyx]

theorem dedupF_sublist (l : List String) : (dedupF l).Sublist l := by
  induction l with
  | nil => simp [dedupF]
  | cons x xs ih =>
    simp only [dedupF]
    exact List.Sublist.cons₂ x (List.Sublist.trans (List.filter_sublist _) ih)

theorem firstDedupAux_eq (l : List String) :
    ∀ seen : List String,
      firstDedupAux seen l = (dedupF l).filter (fun y => !(seen.contains y)) := by
  induction l with
  | nil => intro seen; rfl
  | cons x xs ih =>
    intro seen
    simp only [firstDedupAux, dedupF]
    by_cases hx : seen.contains x = true
    · have hxm : x ∈ seen := by simpa using hx
      rw [if_pos hx, ih seen]
      simp only [List.filter_cons]
      rw [if_neg (by simp [hxm])]
      rw [List.filter_filter]
      apply List.filter_congr
      intro y _
      by_cases hyx : y = x
      · subst hyx
        simp [hxm]
      · simp [hyx]
    · have hxm : x ∉ seen := by simpa using hx
      rw [if_neg hx, ih (x :: seen)]
      simp only [List.filter_cons]
      rw [if_pos (by simp [hxm])]
      congr 1
      rw [List.filter_filter]
      apply List.filter_congr
      intro y _
      by_cases hyx : y = x
      · subst hyx
        simp
      · simp [hyx]

theorem insByKey_mem (key : String → Nat) (a : String) :
    ∀ (l : List String) (x : String), x ∈ insByKey key a l → x = a ∨ x ∈ l := by
  intro l
  induction l with
  | nil =>
    intro x hx
    rw [insByKey, List.mem_singleton] at hx
    exact Or.inl hx
  | cons b bs ih =>
    intro x hx
    rw [insByKey] at hx
    by_cases hlt : key b < key a
    · rw [if_pos hlt, List.mem_cons] at hx
      rcases hx with rfl | hx
      · exact Or.inr (List.mem_cons_self _ _)
      · rcases ih x hx with h | h
        · exact Or.inl h
        · exact Or.inr (List.mem_cons_of_mem _ h)
    · rw [if_neg hlt, List.mem_cons] at hx
      rcases hx with rfl | hx
      · exact Or.inl rfl
      · exact Or.inr hx

theorem insByKey_filter (key : String → Nat) (a : String) (k : Nat) :
    ∀ l : List String, (insByKey key a l).filter (fun x => key x == k) =
      if key a == k then a :: l.filter (fun x => key x == k)
      else l.filter (fun x => key x == k) := by
  intro l
  induction l with
  | nil =>
    rw [insByKey]
    by_cases hak : (key a == k) = true <;> simp [List.filter_cons, hak]
  | cons b bs ih =>
    rw [insByKey]
    by_cases hlt : key b < key a
    · rw [if_pos hlt]
      by_cases hbk : (key b == k) = true
      · have hak : ¬ ((key a == k) = true) := by
          simp only [beq_iff_eq] at hbk ⊢
          omega
        simp [List.filter_cons, hbk, hak, ih]
      · simp [List.filter_cons, hbk, ih]
    · rw [if_neg hlt]
      by_cases hak : (key a == k) = true <;> simp [List.filter_cons, hak]

theorem stableSortByKey_filter (key : String → Nat) (k : Nat) :
    ∀ l : List String, (stableSortByKey key l).filter (fun x => key x == k) =
      l.filter (fun x => key x == k) := by
  intro l
  induction l with
  | nil => rfl
  | cons a as ih =>
    rw [stableSortByKey, insByKey_filter]
    by_cases hak : (key a == k) = true <;> simp [List.filter_cons, hak, ih]

theorem insByKey_perm (key : String → Nat) (a : String) :
    ∀ l : List String, (insByKey key a l).Perm (a :: l) := by
  intro l
  induction l with
  | nil => exact List.Perm.refl _
  | cons b bs ih =>
    rw [insByKey]
    by_cases hlt : key b < key a
    · rw [if_pos hlt]
      exact (ih.cons b).trans (List.Perm.swap a b bs)
    · rw [if_neg hlt]

theorem stableSortByKey_perm (key : String → Nat) :
    ∀ l : List String, (stableSortByKey key l).Perm l := by
  intro l
  induction l with
  | nil => exact List.Perm.refl _
  | cons a as ih =>
    rw [stableSortByKey]
    exact (insByKey_perm key a _).trans (ih.cons a)

theorem insByKey_pairwise (key : String → Nat) (a : String) :
    ∀ l : List String, l.Pairwise (fun x y => key x ≤ key y) →
      (insByKey key a l).Pairwise (fun x y => key x ≤ key y) := by
  intro l
  induction l with
  | nil =>
    intro _
    simp [insByKey]
  | cons b bs ih =>
    intro hp
    rcases List.pairwise_cons.mp hp with ⟨hb, hbs⟩
    rw [insByKey]
    by_cases hlt : key b < key a
    · rw [if_pos hlt]
      refine List.pairwise_cons.mpr ⟨?_, ih hbs⟩
      intro y hy
      rcases insByKey_mem key a bs y hy with rfl | hy
      · exact le_of_lt hlt
      · exact hb y hy
    · rw [if_neg hlt]
      refine List.pairwise_cons.mpr ⟨?_, hp⟩
      intro y hy
      rcases List.mem_cons.mp hy with rfl | hy
      · exact not_lt.mp hlt
      · exact le_trans (not_lt.mp hlt) (hb y hy)

theorem stableSortByKey_pairwise (key : String → Nat) :
    ∀ l : List String, (stableSortByKey key l).Pairwise (fun x y => key x ≤ key y) := by
  intro l
  induction l with
  | nil => simp [stableSortByKey]
  | cons a as ih =>
    rw [stableSortByKey]
    exact insByKey_pairwise key a _ ih

theorem scanDictTop_eq (fields : List (String × JVal)) :
    scanDictTop fields = (topCands fields).find? (fun p => metaValid p.1) := by
  unfold scanDictTop topCands
  cases objGet fields "description" with
  | none => rfl
  | some v =>
    by_cases hv : metaValid (_clean_text (pyStr v)) = true
    · simp [List.find?, hv]
    · simp only [Bool.not_eq_true] at hv
      simp [List.find?, hv]

theorem scanDictSub_eq (fields : List (String × JVal)) :
    scanDictSub fields = (subCands fields).find? (fun p => metaValid p.1) := by
  unfold scanDictSub subCands
  split
  · rename_i sfv heq
    cases objGet sfv "description" with
    | none => rfl
    | some v =>
      by_cases hv : metaValid (_clean_text (pyStr v)) = true
      · simp [List.find?, hv]
      · simp only [Bool.not_eq_true] at hv
        simp [List.find?, hv]
  · rfl

theorem scanDict_eq (jd : JVal) :
    scanDict jd = (dictCands jd).find? (fun p => metaValid p.1) := by
  cases jd with
  | jobj fields =>
    simp only [scanDict, dictCands]
    rw [List.find?_append, scanDictTop_eq fields]
    cases (topCands fields).find? (fun p => metaValid p.1) with
    | some r => rfl
    | none =>
      rw [Option.none_or]
      exact scanDictSub_eq fields
  | jstr s => rfl
  | jnum n => rfl
  | jbool b => rfl
  | jnull => rfl
  | jarr l => rfl

theorem scanArr_eq (arr : List JVal) :
    scanArr arr = ((arr.map dictCands).flatten).find? (fun p => metaValid p.1) := by
  induction arr with
  | nil => rfl
  | cons jd rest ih =>
    simp only [scanArr, List.map_cons, List.flatten_cons]
    rw [List.find?_append, scanDict_eq jd]
    cases (dictCands jd).find? (fun p => metaValid p.1) with
    | some r => rfl
    | none =>
      rw [Option.none_or]
      exact ih

theorem scanJsonld_eq (blocks : List (Option JVal)) :
    scanJsonld blocks = (jsonldCands blocks).find? (fun p => metaValid p.1) := by
  induction blocks with
  | nil => rfl
  | cons b rest ih =>
    cases b with
    | none =>
      simp only [scanJsonld, jsonldCands]
      exact ih
    | some data =>
      simp only [scanJsonld, jsonldCands]
      rw [List.find?_append, scanArr_eq (blockArr data)]
      cases ((blockArr data).map dictCands).flatten.find? (fun p => metaValid p.1) with
      | some r => rfl
      | none =>
        rw [Option.none_or]
        exact ih

theorem metaTier2_eq (meta : Option String) (blocks : List (Option JVal)) :
    metaTier2 meta blocks =
      ((match meta with | some c => [(_clean_text c, "meta")] | none => []) ++
        jsonldCands blocks).find? (fun p => metaValid p.1) := by
  unfold metaTier2
  cases meta with
  | none =>
    simp only [List.nil_append]
    exact scanJsonld_eq blocks
  | some c =>
    by_cases hv : metaValid (_clean_text c) = true
    · simp [List.find?, hv]
    · simp only [Bool.not_eq_true] at hv
      simp only [List.cons_append, List.nil_append, List.find?, hv]
      exact scanJsonld_eq blocks

theorem metaTier_eq (og meta : Option String) (blocks : List (Option JVal)) :
    metaTier og meta blocks = (metaCands og meta blocks).find? (fun p => metaValid p.1) := by
  unfold metaTier metaCands
  cases og with
  | none =>
    simp only [List.nil_append]
    exact metaTier2_eq meta blocks
  | some c =>
    by_cases hv : metaValid (_clean_text c) = true
    · simp [List.find?, hv]
    · simp only [Bool.not_eq_true] at hv
      simp only [List.cons_append, List.nil_append, List.find?, hv]
      exact metaTier2_eq meta blocks

theorem jsonldCands_skip (l₁ l₂ : List (Option JVal)) :
    jsonldCands (l₁ ++ none :: l₂) = jsonldCands (l₁ ++ l₂) := by
  induction l₁ with
  | nil => rfl
  | cons b rest ih =>
    cases b with
    | none => simpa only [List.cons_append, jsonldCands, List.append_eq] using ih
    | some data =>
      simp only [List.cons_append, jsonldCands, List.append_eq]
      rw [ih]

/-- Claim C1 (amended): for every catalog item, when every network fetch
raises, fetch_description_from_detail_page returns the catalog fallback
and that fallback is a non-empty string — the resolver never raises and
never returns an empty result.  (The stated acceptance rule does not
hold: see the counterexample, where the synthesized sentence has fewer
than 30 characters.) -/
theorem c1_resolver_total_fallback (cfg : Config) (net : String → FetchOutcome)
    (url : String) (item : Item) (hnet : ∀ u, net u = FetchOutcome.err) :
    fetch_description_from_detail_page cfg net url item = fallback_description item ∧
    fallback_description item ≠ "" := by
  refine ⟨?_, fallback_ne_empty item⟩
  unfold fetch_description_from_detail_page
  split
  · rfl
  · have hres : resolveLoop cfg ((_build_candidate_urls cfg item url).map net) = none := by
      apply resolveLoop_all_err
      intro o ho
      rcases List.mem_map.mp ho with ⟨u, _, hu⟩
      rw [← hu, hnet]
    rw [hres]

/-- Witness for C1 at a concrete item and an always-failing network. -/
theorem c1_resolver_total_fallback_instance :
    fetch_description_from_detail_page {} (fun _ => FetchOutcome.err)
        "https://www.dmm.co.jp/x" { title := "Sample VR Title" } =
      fallback_description { title := "Sample VR Title" } ∧
    fallback_description ({ title := "Sample VR Title" } : Item) ≠ "" :=
  c1_resolver_total_fallback {} (fun _ => FetchOutcome.err)
    "https://www.dmm.co.jp/x" { title := "Sample VR Title" } (fun _ => rfl)

/-- Counterexample to claim C1 as stated: an item whose title is the
single character V has a non-empty title, yet with every fetch failing
the resolver returns the 24-character synthesized sentence, which fails
the 30-character acceptance rule. -/
theorem c1_acceptance_rule_counterexample :
    ({ title := "V" } : Item).title ≠ "" ∧
    fetch_description_from_detail_page {} (fun _ => FetchOutcome.err) "u" { title := "V" } =
      "V。ジャンル：。出演：。レーベル：。収録時間：。" ∧
    is_valid_description
      (fetch_description_from_detail_page {} (fun _ => FetchOutcome.err) "u"
        { title := "V" }) = false := by
  refine ⟨by decide, by decide, by decide⟩

/-- Claim C2 (amended): when the page carries no age-gate marker and the
main-body extractor returns a text that also passes the global
forbidden-phrase validation, pick_from_html returns that text tagged
main, before any metadata extraction — for every og/meta/JSON-LD
content.  (The main-body validation alone does not suffice: see the
counterexample.) -/
theorem c2_main_tier_priority (cfg : Config) (page : Page) (md : String)
    (hmk : (age_gate_markers.any fun k => strHas page.text k) = false)
    (hex : extract_main_description cfg page = some md)
    (hval : is_valid_description md = true) :
    pick_from_html cfg page = (some md, some "main") := by
  have hne : (md != "") = true := by
    simp only [bne_iff_ne, ne_eq]
    exact is_valid_ne_empty hval
  unfold pick_from_html
  rw [hmk, hex]
  simp [hne, hval]

/-- Witness for C2 on a page with a fully valid main block and a valid
og:description. -/
theorem c2_main_tier_priority_instance :
    pick_from_html {} pageW2 = (some mainTextW2, some "main") :=
  c2_main_tier_priority {} pageW2 mainTextW2 (by decide) (by decide) (by decide)

/-- Counterexample to claim C2 as stated: pageCE2 contains a main-body
block that passes the main-body validation (length 63 within 60..1200, no
disqualifying phrase), and a valid og:description, yet pick_from_html
returns the og text tagged og, because the main text carries the global
forbidden phrase 未成年. -/
theorem c2_tier_priority_counterexample :
    mainOk (_clean_text mainTextCE) = true ∧
    extract_main_description {} pageCE2 = some mainTextCE ∧
    (30 ≤ (_clean_text ogTextCE).length ∧ (_clean_text ogTextCE).length ≤ 700 ∧
      is_valid_description (_clean_text ogTextCE) = true) ∧
    pick_from_html {} pageCE2 = (some ogTextCE, some "og") := by
  refine ⟨by decide, by decide, ⟨by decide, by decide, by decide⟩, by decide⟩

/-- Claim C3 (amended): the candidate loop never inspects the HTTP
status — a response is processed identically whatever its status code
(in particular a not-found response's body does reach the age-gate check
and the extractors), and only a raised transport error advances to the
next candidate without body inspection. -/
theorem c3_status_never_inspected (cfg : Config) (s₁ s₂ : Nat) (page : Page)
    (rest : List FetchOutcome) :
    resolveLoop cfg (FetchOutcome.ok s₁ page :: rest) =
      resolveLoop cfg (FetchOutcome.ok s₂ page :: rest) ∧
    resolveLoop cfg (FetchOutcome.err :: rest) = resolveLoop cfg rest :=
  ⟨by simp only [resolveLoop], by simp only [resolveLoop]⟩

/-- Counterexample to claim C3 as stated: a candidate whose response has
status 404 is not skipped — its body is passed to extraction and its
og:description is returned, where advancing past it would have produced
none. -/
theorem c3_not_found_counterexample :
    resolveLoop {} [FetchOutcome.ok 404 pageCE3] = some ogTextCE3 ∧
    resolveLoop {} ([] : List FetchOutcome) = none ∧
    pick_from_html {} pageCE3 = (some ogTextCE3, some "og") := by
  refine ⟨by decide, rfl, by decide⟩

/-- Claim C4: when the page text contains an age-gate marker,
pick_from_html answers (none, age-gate) before any extraction — for all
selector, heading, paragraph, og, meta and JSON-LD content of the
page — and the candidate loop proceeds with the remaining candidates
exactly as if this candidate were absent (no bypass is attempted: the
resolver owns no other path). -/
theorem c4_age_gate_short_circuit (cfg : Config) (page : Page)
    (h : (age_gate_markers.any fun k => strHas page.text k) = true) :
    pick_from_html cfg page = (none, some "age-gate") ∧
    ∀ (s : Nat) (rest : List FetchOutcome),
      resolveLoop cfg (FetchOutcome.ok s page :: rest) = resolveLoop cfg rest := by
  have hp : pick_from_html cfg page = (none, some "age-gate") := by
    unfold pick_from_html
    rw [h]
    simp
  refine ⟨hp, ?_⟩
  intro s rest
  simp only [resolveLoop]
  rw [hp]

/-- Witness for C4 at a marker-carrying page that also offers a valid
og:description. -/
theorem c4_age_gate_short_circuit_instance :
    pick_from_html {} pageW4 = (none, some "age-gate") ∧
    resolveLoop {} [FetchOutcome.ok 200 pageW4, FetchOutcome.err] =
      resolveLoop {} [FetchOutcome.err] := by
  have h := c4_age_gate_short_circuit {} pageW4 (by decide)
  exact ⟨h.1, h.2 200 [FetchOutcome.err]⟩

/-- Claim C5: the main-body extractor returns none exactly when no
cleaned candidate passes the validation (length within 60..1200 after
cleaning, no disqualifying phrase — the mainOk filter of
validMainCands); every accepted candidate passes mainOk; and a returned
text is a valid cleaned candidate that strictly beats every earlier
valid candidate and is not beaten by any later one — the single
highest-scoring candidate under descScore with ties keeping the first
encountered. -/
theorem c5_main_extractor_selection (cfg : Config) (page : Page) :
    (extract_main_description cfg page = none ↔ validMainCands cfg page = []) ∧
    (∀ e ∈ validMainCands cfg page, mainOk e = true) ∧
    (∀ d, extract_main_description cfg page = some d →
      ∃ l₁ l₂, validMainCands cfg page = l₁ ++ d :: l₂ ∧
        (∀ e ∈ l₁, descScore e < descScore d) ∧
        (∀ e ∈ l₂, descScore e ≤ descScore d)) := by
  unfold extract_main_description validMainCands
  by_cases hguard : (!cfg.scrapeDesc || !cfg.bs4Available || page.text == "") = true
  · rw [if_pos hguard, if_pos hguard]
    exact ⟨by simp, by simp, by simp⟩
  · rw [if_neg hguard, if_neg hguard, emLoop_eq]
    refine ⟨firstArgmax_eq_none, ?_, ?_⟩
    · intro e he
      exact List.of_mem_filter he
    · intro d h
      exact firstArgmax_decomp h

/-- Witness for C5 on a page pooling two valid candidates of scores 60
and 82: the second, higher-scoring one is returned. -/
theorem c5_main_extractor_selection_instance :
    ∃ l₁ l₂, validMainCands {} pageW5 = l₁ ++ candW5b :: l₂ ∧
      (∀ e ∈ l₁, descScore e < descScore candW5b) ∧
      (∀ e ∈ l₂, descScore e ≤ descScore candW5b) :=
  (c5_main_extractor_selection {} pageW5).2.2 candW5b (by decide)

/-- Claim C6: the candidate URL generator is deterministic; its output
has no duplicates and equals the first-occurrence dedup (dedupF) of the
sorted list, hence a sublist with the same members; and the preference
sort is a stable sort: it preserves each key class of the raw list
(relative order within each domain group undisturbed), sorts by the key,
and permutes the input. -/
theorem c6_candidate_url_generation (cfg : Config) (item : Item) (url : String) :
    _build_candidate_urls cfg item url = _build_candidate_urls cfg item url ∧
    (_build_candidate_urls cfg item url).Nodup ∧
    _build_candidate_urls cfg item url = dedupF (sortedUrls cfg item url) ∧
    (∀ x, x ∈ _build_candidate_urls cfg item url ↔ x ∈ sortedUrls cfg item url) ∧
    (_build_candidate_urls cfg item url).Sublist (sortedUrls cfg item url) ∧
    (∀ (key : String → Nat) (k : Nat),
      (stableSortByKey key (rawUrls item url)).filter (fun x => key x == k) =
        (rawUrls item url).filter (fun x => key x == k)) ∧
    (∀ key : String → Nat,
      (stableSortByKey key (rawUrls item url)).Pairwise (fun a b => key a ≤ key b)) ∧
    (∀ key : String → Nat, (stableSortByKey key (rawUrls item url)).Perm (rawUrls item url)) := by
  have hb : _build_candidate_urls cfg item url = dedupF (sortedUrls cfg item url) := by
    unfold _build_candidate_urls
    rw [firstDedupAux_eq]
    exact List.filter_eq_self.mpr (fun a _ => rfl)
  refine ⟨rfl, ?_, hb, ?_, ?_, ?_, ?_, ?_⟩
  · rw [hb]; exact dedupF_nodup _
  · intro x; rw [hb]; exact dedupF_mem _ x
  · rw [hb]; exact dedupF_sublist _
  · intro key k; exact stableSortByKey_filter key k _
  · intro key; exact stableSortByKey_pairwise key _
  · intro key; exact stableSortByKey_perm key _

/-- Claim C7 (amended): the sanitizer is idempotent on every string
whose cleaned form contains no ampersand, no adjacent pair of whitespace
characters and no boilerplate substring; in general a second application
can change the text further (see the counterexample, where boilerplate
removal creates a fresh whitespace run). -/
theorem c7_clean_idempotent_on_sanitized (s : String)
    (h1 : strHas (_clean_text s) "&" = false)
    (h2 : noWsPair (_clean_text s).toList = true)
    (h3 : ∀ b ∈ cleanBoilerplate, strHas (_clean_text s) b = false) :
    _clean_text (_clean_text s) = _clean_text s := by
  have hu : htmlUnescape (_clean_text s) = _clean_text s := htmlUnescape_noop _ h1
  have hs : pyStrip (_clean_text s) = _clean_text s := clean_stripped s
  have hcw : String.mk (collapseWs (_clean_text s).toList) = _clean_text s := by
    rw [collapseWs_noop _ h2, strMk_toList]
  have hexp : _clean_text (_clean_text s) =
      pyStrip (cleanBoilerplate.foldl (fun acc b => strReplace acc b "")
        (String.mk (collapseWs (pyStrip (htmlUnescape (_clean_text s))).toList))) := rfl
  rw [hexp, hu, hs, hcw, foldl_replace_noop _ cleanBoilerplate h3, hs]

/-- Witness for C7 at a plain sentence, already fixed by one cleaning. -/
theorem c7_clean_idempotent_on_sanitized_instance :
    _clean_text (_clean_text "Quiet words stay the same here") =
      _clean_text "Quiet words stay the same here" :=
  c7_clean_idempotent_on_sanitized "Quiet words stay the same here"
    (by decide) (by decide) (by decide)

/-- Counterexample to claim C7 as stated: removing the boilerplate
phrase 成人向け from a string that was already cleaned once leaves two
adjacent spaces, which only the second application collapses — the
sanitizer is not idempotent on all strings. -/
theorem c7_idempotence_counterexample :
    _clean_text (_clean_text "a 成人向け b") ≠ _clean_text "a 成人向け b" := by
  decide

/-- Claim C8: the metadata fallback equals first-match search over the
tier-ordered candidate list (cleaned og:description, then the cleaned
description meta tag, then for each parsed JSON-LD block, in document
order, each object's top-level description followed by its
subjectOf.description, lists scanned element-wise) under the metadata
validation; and a block that failed to parse is skipped exactly — the
scan over all other blocks is unchanged. -/
theorem c8_meta_fallback_order (og meta : Option String)
    (blocks l₁ l₂ : List (Option JVal)) :
    metaTier og meta blocks = (metaCands og meta blocks).find? (fun p => metaValid p.1) ∧
    metaTier og meta (l₁ ++ none :: l₂) = metaTier og meta (l₁ ++ l₂) := by
  refine ⟨metaTier_eq og meta blocks, ?_⟩
  rw [metaTier_eq, metaTier_eq]
  unfold metaCands
  rw [jsonldCands_skip]

/-- Claim C9: an item whose sampleImageURL yields an empty images list
makes create_wp_post return false with only the existing-post query in
its call trace — in particular no post-creation call is issued, whatever
the network, the existing posts, the category or the affiliate id. -/
theorem c9_skip_without_sample_images (cfg : Config) (net : String → FetchOutcome)
    (existingTitles : List String) (category aff_id : String) (item : Item)
    (h : imagesOf item = []) :
    (create_wp_post cfg net existingTitles category aff_id item).1 = false ∧
    (create_wp_post cfg net existingTitles category aff_id item).2 =
      [WpEffect.queryExisting item.title] := by
  unfold create_wp_post
  by_cases he : existingTitles.contains item.title = true
  · rw [if_pos he]
    exact ⟨rfl, rfl⟩
  · rw [if_neg he, h]
    simp

/-- Witness for C9 at an item with no sample image groups. -/
theorem c9_skip_without_sample_images_instance :
    (create_wp_post {} (fun _ => FetchOutcome.err) [] "cat" "aff" { title := "T9" }).1 = false ∧
    (create_wp_post {} (fun _ => FetchOutcome.err) [] "cat" "aff" { title := "T9" }).2 =
      [WpEffect.queryExisting "T9"] :=
  c9_skip_without_sample_images {} (fun _ => FetchOutcome.err) [] "cat" "aff"
    { title := "T9" } rfl

/-- Claim C10: fallback_description returns a non-empty string for every
item record, titled or not: a qualifying catalog field is at least 30
characters, and the synthesized template exceeds 10 characters even with
every field empty (its fixed connectives alone have 23 characters), the
remaining literal branch being a fixed non-empty string. -/
theorem c10_fallback_always_nonempty (item : Item) :
    fallback_description item ≠ "" ∧ 10 < (synth_base item).length :=
  ⟨fallback_ne_empty item, synth_base_length item⟩
